import Mathlib

/-!
Verification model of the ZSSP secure-session protocol engine.

The repository ships the test harness (`src/zssp/src/main.rs`) that drives the
`zssp` library: two threads (`alice_main`, `bob_main`) open a session, exchange
handshake packets, send fragmented data, check `key_info` ratchet counts and
call `Context::service` periodically.  The library implementation itself
(`zssp::Context`, `zssp::Session`) is not part of the sources, so the protocol
core below is modelled from the specification (sections 3-7): handshake key
agreement, replay window, fragmentation/reassembly, send counters, ratcheting,
expiry and the maintenance sweep.  The configuration constants are the exact
values the harness supplies through its `ApplicationLayer` implementation.
-/

namespace Zssp

/-- Constant from `TestApplication` in `src/zssp/src/main.rs`: rekey after this
many uses of one key generation. -/
def REKEY_AFTER_USES : Nat := 300000

/-- Constant from `TestApplication`: absolute usage ceiling of one key
generation; reaching it without a ratchet expires the session. -/
def EXPIRE_AFTER_USES : Nat := 2147483648

/-- Constant from `TestApplication`: rekey after this much wall-clock time. -/
def REKEY_AFTER_TIME_MS : Nat := 1000 * 60 * 60 * 2

/-- Constant from `TestApplication`: maximum random jitter added to the rekey
interval. -/
def REKEY_AFTER_TIME_MS_MAX_JITTER : Nat := 1000 * 60 * 10

/-- Constant from `TestApplication`: an incoming handshake that has not
completed after this long is discarded. -/
def INCOMING_SESSION_NEGOTIATION_TIMEOUT_MS : Nat := 2000

/-- Constant from `TestApplication`: retransmission interval for unanswered
handshake messages. -/
def RETRY_INTERVAL : Nat := 500

/-- Constant `TEST_MTU` from `src/zssp/src/main.rs`. -/
def TEST_MTU : Nat := 1500

/-- Modelled from the spec: the single protocol version byte the
implementation supports (spec section 4.2: any other version tag fails with
`UnknownProtocolVersion`).  The concrete value is not observable in the
harness. -/
def PROTOCOL_VERSION : Nat := 0

/-- Modelled from the spec: size of the bounded sliding replay window behind
the highest observed counter (spec section 4.3).  The concrete width is not
observable in the harness. -/
def WINDOW_SIZE : Nat := 64

/-- Modelled from the spec: per-datagram header overhead (version, session id,
type tag, counter; spec section 6 wire layout). -/
def HEADER_SIZE : Nat := 32

/-- Modelled from the spec: AEAD authentication tag size. -/
def AEAD_TAG_SIZE : Nat := 16

/-- Modelled from the spec: usable payload of one MTU-sized datagram, the MTU
minus header and AEAD tag overhead (spec section 4.4). -/
def usablePayload (mtu : Nat) : Nat := mtu - (HEADER_SIZE + AEAD_TAG_SIZE)

/-- Modelled from the spec: the error taxonomy of section 7. -/
inductive Error where
  | UnknownProtocolVersion
  | InvalidKeyEncoding
  | AuthenticationFailed
  | ReplayDetected
  | NegotiationTimedOut
  | SessionExpired
  | MalformedPacket
  | ResourceExhausted
  deriving DecidableEq, Repr

/-- Modelled from the spec: a public key, the public half of a discrete-log
style key pair (section 4.1).  Exponentiation of a fixed base stands in for
the elliptic-curve group operation. -/
def pubkey (priv : Nat) : Nat := 2 ^ priv

/-- Modelled from the spec: elliptic-curve Diffie-Hellman between a local
private key and a remote public key (section 4.1). -/
def ecdh (priv pub : Nat) : Nat := pub ^ priv

/-- The defining algebraic property of Diffie-Hellman: both parties compute
the same shared secret. -/
theorem ecdh_comm (x y : Nat) : ecdh x (pubkey y) = ecdh y (pubkey x) := by
  unfold ecdh pubkey
  rw [← Nat.pow_mul, ← Nat.pow_mul, Nat.mul_comm]

/-- Modelled from the spec: the key-derivation function combining shared
secrets, the pre-shared secret and context-binding material into session key
material (section 4.1).  Key material is represented as the ordered list of
KDF inputs. -/
def kdf (secrets : List Nat) : List Nat := secrets

/-- Modelled from the spec: the fingerprint of session key material that
`key_info` reports (second component of the pair the harness prints). -/
def fingerprint (km : List Nat) : List Nat := km

/-- Modelled from the spec: the transcript authentication tag computed from
key material (section 4.2). -/
def authTag (km : List Nat) : Nat := km.sum

/-- Modelled from the spec, section 4.2: the session key material the
initiator derives after receiving the responder's ephemeral public key. -/
def initiatorKey (aPriv ePriv bPub ebPub psk : Nat) : List Nat :=
  kdf [ecdh ePriv ebPub, ecdh ePriv bPub, ecdh aPriv ebPub, ecdh aPriv bPub,
       psk, pubkey aPriv, bPub]

/-- Modelled from the spec, section 4.2: the session key material the
responder derives from the initiation message. -/
def responderKey (bPriv ePriv aPub eaPub psk : Nat) : List Nat :=
  kdf [ecdh ePriv eaPub, ecdh bPriv eaPub, ecdh ePriv aPub, ecdh bPriv aPub,
       psk, aPub, pubkey bPriv]

/-- Both handshake roles derive identical session key material (spec
section 4.2, "the initiator ... derives the same session key"). -/
theorem key_agreement (a b e1 e2 p : Nat) :
    initiatorKey a e1 (pubkey b) (pubkey e2) p
      = responderKey b e2 (pubkey a) (pubkey e1) p := by
  simp [initiatorKey, responderKey, kdf, ecdh_comm e1 e2, ecdh_comm e1 b,
        ecdh_comm a e2, ecdh_comm a b]

/-- Modelled from the spec, section 4.4: split a message into chunks of at
most `ps` elements each (one usable-payload-sized chunk per datagram). -/
def chunkList (ps : Nat) (l : List Nat) : List (List Nat) :=
  if l = [] ∨ ps = 0 then []
  else l.take ps :: chunkList ps (l.drop ps)
termination_by l.length
decreasing_by
  rename_i h
  push_neg at h
  obtain ⟨h1, h2⟩ := h
  have : 0 < l.length := List.length_pos.mpr h1
  simp [List.length_drop]
  omega

/-- Concatenating the chunks restores the original message. -/
theorem chunkList_flatten (ps : Nat) (hps : 0 < ps) (l : List Nat) :
    (chunkList ps l).flatten = l := by
  induction l using chunkList.induct ps with
  | case1 l h =>
    rw [chunkList, if_pos h]
    rcases h with h | h
    · simp [h]
    · omega
  | case2 l h ih =>
    rw [chunkList, if_neg h]
    simp [ih]

/-- A nonempty message of length `n` splits into exactly `⌈n / ps⌉` chunks
(spec section 8 scenario: a 14,000-byte message over a 1,500-byte MTU yields
`⌈14000 / usable-payload⌉` datagrams). -/
theorem chunkList_length (ps : Nat) (hps : 0 < ps) (l : List Nat) :
    l ≠ [] → (chunkList ps l).length = (l.length + ps - 1) / ps := by
  induction l using chunkList.induct ps with
  | case1 l h =>
    intro hl
    rcases h with h | h
    · exact absurd h hl
    · omega
  | case2 l h ih =>
    intro _
    push_neg at h
    have hlen : 0 < l.length := List.length_pos.mpr h.1
    rw [chunkList, if_neg (by push_neg; exact h)]
    by_cases hd : l.drop ps = []
    · have hle : l.length ≤ ps := List.drop_eq_nil_iff.mp hd
      rw [hd, chunkList, if_pos (Or.inl rfl)]
      have h1 : (l.length + ps - 1) / ps = 1 := by
        apply Nat.div_eq_of_lt_le <;> omega
      simp [h1]
    · have hgt : ps < l.length := by
        by_contra hc
        exact hd (List.drop_eq_nil_iff.mpr (by omega))
      have hrw : l.length + ps - 1 = (l.drop ps).length + ps - 1 + ps := by
        simp [List.length_drop]
        omega
      rw [List.length_cons, ih hd, hrw, Nat.add_div_right _ hps]

/-- Modelled from the spec, sections 3 and 4.4: one wire fragment of a data
packet: key generation, shared message identifier, ordinal within the message,
total fragment count, the replay counter, the AEAD tag and the payload
chunk. -/
structure Fragment where
  gen : Nat
  msgId : Nat
  ordinal : Nat
  total : Nat
  counter : Nat
  tag : Nat
  payload : List Nat
  deriving DecidableEq, Repr

/-- Modelled from the spec, section 3: the wire packet. `init` carries the
version byte, the initiator's static and ephemeral public keys and the
initiator's session id; `response` carries the version, the initiator's
session id for routing, the responder's ephemeral public key, the responder's
session id, and the transcript tag; `data` carries a session id and one
fragment. -/
inductive Packet where
  | init (version sPub ePub initiatorSid : Nat)
  | response (version sid ePub responderSid tag : Nat)
  | data (sid : Nat) (frag : Fragment)
  deriving DecidableEq, Repr

/-- Modelled from the spec, section 4.5: the result variants of
`Context::receive`. -/
inductive ReceiveResult where
  | Ok
  | OkData (sid : Nat) (payload : List Nat)
  | OkNewSession (sid : Nat)
  | Rejected
  deriving DecidableEq, Repr

/-- Modelled from the spec, section 4.3: the replay-detection window — the
highest counter observed for the current generation plus the set of already
accepted counters. -/
structure ReplayWindow where
  highest : Nat
  seen : List Nat
  deriving DecidableEq, Repr

/-- Modelled from the spec, section 4.3: accept a receive counter only if it
was not already seen and is not outside the bounded sliding window behind
the highest observed counter; on acceptance mark it consumed. -/
def acceptCounter (w : ReplayWindow) (c : Nat) : Option ReplayWindow :=
  if c ∈ w.seen then none
  else if c + WINDOW_SIZE ≤ w.highest then none
  else some { highest := max w.highest c, seen := c :: w.seen }

/-- Modelled from the spec, section 3: the Session entity.  Unestablished
sessions double as the handshake transcript (ephemeral private key, remote
static public key, pre-shared secret, creation and last-transmission
times). -/
structure Session where
  localId : Nat
  remoteId : Nat
  established : Bool
  expired : Bool
  keyMaterial : List Nat
  ratchetCount : Nat
  sendCounter : Nat
  uses : Nat
  lastRekeyTime : Nat
  jitter : Nat
  window : ReplayWindow
  reasm : List Fragment
  ephPriv : Nat
  remoteStaticPub : Nat
  psk : Nat
  created : Nat
  lastSent : Nat
  deriving DecidableEq, Repr

/-- Modelled from the spec: `Session::key_info`, returning the ratchet
generation counter and the key fingerprint of an established session (the
harness unwraps this on established sessions and prints both fields). -/
def Session.key_info (s : Session) : Option (Nat × List Nat) :=
  if s.established then some (s.ratchetCount, fingerprint s.keyMaterial)
  else none

/-- Modelled from the spec, section 4.4: build the fragments of one message:
ordinals count up from `i`, counters count up from `c`, all share the
generation, tag and message identifier. -/
def mkFrags (gen tag msgId total : Nat) : Nat → Nat → List (List Nat) → List Fragment
  | _, _, [] => []
  | i, c, chunk :: rest =>
    { gen := gen, msgId := msgId, ordinal := i, total := total, counter := c,
      tag := tag, payload := chunk } :: mkFrags gen tag msgId total (i + 1) (c + 1) rest

/-- Modelled from the spec, sections 4.3 and 4.4: `Session::send` — refuse on
an expired session or one past the absolute usage ceiling, otherwise fragment
the message into usable-payload-sized chunks, each independently tagged with a
strictly increasing counter under the current generation. -/
def Session.send (s : Session) (mtu : Nat) (msg : List Nat) :
    Except Error (Session × List Fragment) :=
  if s.expired = true ∨ EXPIRE_AFTER_USES ≤ s.uses then .error .SessionExpired
  else
    let chunks := chunkList (usablePayload mtu) msg
    .ok ({ s with sendCounter := s.sendCounter + chunks.length,
                  uses := s.uses + chunks.length },
         mkFrags s.ratchetCount (authTag s.keyMaterial) s.sendCounter
           chunks.length 0 s.sendCounter chunks)

/-- Modelled from the spec, sections 4.3 and 4.4: process one inbound data
fragment on a session: expiry check, generation check, replay-window check,
tag verification, then mark the counter consumed and either buffer the
fragment or release the fully reassembled message. -/
def Session.receiveFragment (s : Session) (f : Fragment) :
    Except Error (Session × ReceiveResult) :=
  if s.expired = true ∨ EXPIRE_AFTER_USES ≤ s.uses then .error .SessionExpired
  else if f.gen ≠ s.ratchetCount then .error .MalformedPacket
  else
    match acceptCounter s.window f.counter with
    | none => .error .ReplayDetected
    | some w =>
      if f.tag ≠ authTag s.keyMaterial then .error .AuthenticationFailed
      else if f.ordinal ≠ s.reasm.length then .error .MalformedPacket
      else if f.ordinal ≠ 0 ∧ s.reasm.head?.map Fragment.msgId ≠ some f.msgId then
        .error .MalformedPacket
      else
        let buf := s.reasm ++ [f]
        if buf.length = f.total then
          .ok ({ s with window := w, reasm := [] },
               .OkData s.localId ((buf.map Fragment.payload).flatten))
        else
          .ok ({ s with window := w, reasm := buf }, .Ok)

/-- Modelled from the spec, section 4.3: the ratchet step — derive a new
generation by extending the key material with a fresh shared secret, increment
the generation counter, reset the usage and send counters and the replay
window, and record the rekey time with fresh jitter. -/
def ratchetSecret (s : Session) : Nat := authTag s.keyMaterial + s.ratchetCount + 1

/-- Modelled from the spec, section 4.3: apply one ratchet to a session. -/
def Session.ratchet (s : Session) (now jitterSeed : Nat) : Session :=
  { s with keyMaterial := s.keyMaterial ++ [ratchetSecret s],
           ratchetCount := s.ratchetCount + 1,
           sendCounter := 0,
           uses := 0,
           lastRekeyTime := now,
           jitter := jitterSeed % (REKEY_AFTER_TIME_MS_MAX_JITTER + 1),
           window := { highest := 0, seen := [] },
           reasm := [] }

/-- Modelled from the spec, section 4.3: a rekey is due once the usage count
reaches `REKEY_AFTER_USES` or the time since the last key derivation reaches
`REKEY_AFTER_TIME_MS` plus the session's jitter. -/
def rekeyDue (s : Session) (now : Nat) : Prop :=
  REKEY_AFTER_USES ≤ s.uses ∨ s.lastRekeyTime + REKEY_AFTER_TIME_MS + s.jitter ≤ now

instance (s : Session) (now : Nat) : Decidable (rekeyDue s now) := by
  unfold rekeyDue; infer_instance

/-- Modelled from the spec, section 3: the Context — the local identity, the
session table and the session-id allocator. -/
structure Context where
  localPriv : Nat
  sessions : List (Nat × Session)
  nextSid : Nat
  mtu : Nat
  deriving DecidableEq, Repr

/-- Look a session up in a session table by its local session id. -/
def findSession : List (Nat × Session) → Nat → Option Session
  | [], _ => none
  | (k, v) :: rest, sid => if k = sid then some v else findSession rest sid

/-- Replace the session stored under `sid`. -/
def Context.update (ctx : Context) (sid : Nat) (s : Session) : Context :=
  { ctx with sessions := ctx.sessions.map fun kv => if kv.1 = sid then (sid, s) else kv }

/-- Modelled from the spec, section 4.5: `Context::open` — allocate a session
id, create the handshake transcript and emit the initiation message carrying
the protocol version, the local static public key, a fresh ephemeral public
key and the new session id. -/
def Context.openSession (ctx : Context) (remoteStaticPub psk ephPriv now : Nat) :
    Context × Packet × Nat :=
  let sid := ctx.nextSid
  let s : Session :=
    { localId := sid, remoteId := 0, established := false, expired := false,
      keyMaterial := [], ratchetCount := 0, sendCounter := 0, uses := 0,
      lastRekeyTime := now, jitter := 0, window := { highest := 0, seen := [] },
      reasm := [], ephPriv := ephPriv, remoteStaticPub := remoteStaticPub,
      psk := psk, created := now, lastSent := now }
  ({ ctx with sessions := (sid, s) :: ctx.sessions, nextSid := sid + 1 },
   Packet.init PROTOCOL_VERSION (pubkey ctx.localPriv) (pubkey ephPriv) sid,
   sid)

/-- Modelled from the spec, sections 4.2 and 4.5: `Context::receive` — parse
and route one inbound packet.  Returns the (possibly unchanged) context, the
emitted response packets, and the result or per-packet error.  `resolver` is
the caller-supplied identity resolver mapping an offered static public key to
the parsed key and pre-shared secret; `ephPriv` is the fresh ephemeral private
key used when accepting an initiation. -/
def Context.receive (ctx : Context) (resolver : Nat → Option (Nat × Nat))
    (ephPriv : Nat) (p : Packet) (now : Nat) :
    Context × List Packet × Except Error ReceiveResult :=
  match p with
  | .init v sPub ePub isid =>
    if v ≠ PROTOCOL_VERSION then (ctx, [], .error .UnknownProtocolVersion)
    else
      match resolver sPub with
      | none => (ctx, [], .ok .Rejected)
      | some (aPub, psk) =>
        let sid := ctx.nextSid
        let km := responderKey ctx.localPriv ephPriv aPub ePub psk
        let s : Session :=
          { localId := sid, remoteId := isid, established := true,
            expired := false, keyMaterial := km, ratchetCount := 0,
            sendCounter := 0, uses := 0, lastRekeyTime := now, jitter := 0,
            window := { highest := 0, seen := [] }, reasm := [],
            ephPriv := ephPriv, remoteStaticPub := aPub, psk := psk,
            created := now, lastSent := now }
        ({ ctx with sessions := (sid, s) :: ctx.sessions, nextSid := sid + 1 },
         [Packet.response PROTOCOL_VERSION isid (pubkey ephPriv) sid (authTag km)],
         .ok (.OkNewSession sid))
  | .response v sid ePub rsid tag =>
    if v ≠ PROTOCOL_VERSION then (ctx, [], .error .UnknownProtocolVersion)
    else
      match findSession ctx.sessions sid with
      | none => (ctx, [], .error .MalformedPacket)
      | some s =>
        if s.established then (ctx, [], .ok .Ok)
        else
          let km := initiatorKey ctx.localPriv s.ephPriv s.remoteStaticPub ePub s.psk
          if tag ≠ authTag km then (ctx, [], .error .AuthenticationFailed)
          else
            (ctx.update sid { s with established := true, keyMaterial := km,
                                     remoteId := rsid, lastRekeyTime := now },
             [], .ok .Ok)
  | .data sid f =>
    match findSession ctx.sessions sid with
    | none => (ctx, [], .error .MalformedPacket)
    | some s =>
      match s.receiveFragment f with
      | .error e => (ctx, [], .error e)
      | .ok (s1, r) => (ctx.update sid s1, [], .ok r)

/-- Modelled from the spec, section 4.5: service one session at time `now`:
tear down expired or usage-ceiling-crossed established sessions, ratchet
established sessions whose rekey threshold is crossed, evict timed-out
handshakes and retransmit due handshake messages.  Returns `none` when the
session is evicted, otherwise the updated session and the packets to emit. -/
def serviceSession (localPriv now jitterSeed : Nat) (s : Session) :
    Option (Session × List Packet) :=
  if s.established then
    if s.expired = true ∨ EXPIRE_AFTER_USES ≤ s.uses then none
    else if rekeyDue s now then some (s.ratchet now jitterSeed, [])
    else some (s, [])
  else
    if s.created + INCOMING_SESSION_NEGOTIATION_TIMEOUT_MS ≤ now then none
    else if s.lastSent + RETRY_INTERVAL ≤ now then
      some ({ s with lastSent := now },
            [Packet.init PROTOCOL_VERSION (pubkey localPriv) (pubkey s.ephPriv) s.localId])
    else some (s, [])

/-- Modelled from the spec, section 4.5: the absolute time at which the next
scheduled action (handshake retransmission, handshake timeout, or rekey) of a
session is due. -/
def Session.nextDeadline (s : Session) : Nat :=
  if s.established then s.lastRekeyTime + REKEY_AFTER_TIME_MS + s.jitter
  else min (s.lastSent + RETRY_INTERVAL)
           (s.created + INCOMING_SESSION_NEGOTIATION_TIMEOUT_MS)

/-- Modelled from the spec, section 4.5: `Context::service` — sweep every
session, perform all due maintenance actions, and return the new context, the
emitted packets and the time until the next action is due across all
remaining sessions (a long idle default when the table is empty). -/
def Context.service (ctx : Context) (now jitterSeed : Nat) :
    Context × List Packet × Nat :=
  let sessions1 := ctx.sessions.filterMap fun kv =>
    (serviceSession ctx.localPriv now jitterSeed kv.2).map fun r => (kv.1, r.1)
  let out := (ctx.sessions.filterMap fun kv =>
    (serviceSession ctx.localPriv now jitterSeed kv.2).map fun r => r.2).flatten
  let delay :=
    match sessions1.map fun kv => kv.2.nextDeadline with
    | [] => REKEY_AFTER_TIME_MS
    | d :: ds => ds.foldl min d - now
  ({ ctx with sessions := sessions1 }, out, delay)

/-- Models the harness exchange of `alice_main` and `bob_main`: Alice opens a
session towards Bob's static key, Bob receives the initiation (with his own
fresh ephemeral key) and every packet Bob emits is fed back to Alice.  The
whole handshake completes within this single round trip. -/
def runHandshake (resolver : Nat → Option (Nat × Nat))
    (a b e1 e2 p na nb mtu now : Nat) : Context × Context :=
  let ctxA0 : Context := { localPriv := a, sessions := [], nextSid := na, mtu := mtu }
  let ctxB0 : Context := { localPriv := b, sessions := [], nextSid := nb, mtu := mtu }
  match ctxA0.openSession (pubkey b) p e1 now with
  | (ctxA1, pInit, _) =>
    match ctxB0.receive resolver e2 pInit now with
    | (ctxB1, outB, _) =>
      match outB with
      | [pResp] => ((ctxA1.receive resolver 0 pResp now).1, ctxB1)
      | _ => (ctxA1, ctxB1)

/-- Models the harness receive loop: feed a list of inbound packets through
`Context.receive` one after the other, collecting every result. -/
def deliverAll (ctx : Context) (resolver : Nat → Option (Nat × Nat)) (e : Nat)
    (ps : List Packet) (now : Nat) :
    Context × List (Except Error ReceiveResult) :=
  match ps with
  | [] => (ctx, [])
  | p :: rest =>
    match ctx.receive resolver e p now with
    | (ctx1, _, r) =>
      match deliverAll ctx1 resolver e rest now with
      | (ctx2, rs) => (ctx2, r :: rs)

/-- Models the harness send loop: send a list of messages one after the
other on the same session, collecting every emitted fragment. -/
def sendMany (mtu : Nat) (s : Session) (msgs : List (List Nat)) :
    Except Error (Session × List Fragment) :=
  match msgs with
  | [] => .ok (s, [])
  | m :: ms =>
    match s.send mtu m with
    | .error e => .error e
    | .ok (s1, fs) =>
      match sendMany mtu s1 ms with
      | .error e => .error e
      | .ok (s2, fs2) => .ok (s2, fs ++ fs2)

/-- The fragments of a successful send result (empty on error). -/
def sendResultFrags (r : Except Error (Session × List Fragment)) : List Fragment :=
  match r with
  | .ok (_, fs) => fs
  | .error _ => []

/-- A concrete established session used by the witnesses. -/
def demoSession : Session :=
  { localId := 10, remoteId := 20, established := true, expired := false,
    keyMaterial := [5, 6], ratchetCount := 0, sendCounter := 0, uses := 0,
    lastRekeyTime := 0, jitter := 0, window := { highest := 0, seen := [] },
    reasm := [], ephPriv := 3, remoteStaticPub := 4, psk := 7, created := 0,
    lastSent := 0 }

/-- Claim C7: when `Context::receive` processes a handshake initiation and the
resolver returns none for the offered static public key, it returns
`ReceiveResult::Rejected` (not an error), the session table is unchanged (no
session entry is created) and nothing else is emitted, so no ratchetable
state leaks. -/
theorem claim_C7_resolver_rejection (ctx : Context)
    (resolver : Nat → Option (Nat × Nat)) (e sPub ePub isid now : Nat)
    (hres : resolver sPub = none) :
    ctx.receive resolver e (.init PROTOCOL_VERSION sPub ePub isid) now
      = (ctx, [], .ok .Rejected) := by
  simp [Context.receive, hres]

/-- Witness for claim C7 at a concrete context and packet. -/
theorem claim_C7_witness :
    (Context.mk 1 [] 0 1500).receive (fun _ => none) 0
        (.init PROTOCOL_VERSION 4 8 0) 0
      = (Context.mk 1 [] 0 1500, [], .ok .Rejected) :=
  claim_C7_resolver_rejection _ _ _ _ _ _ _ rfl

/-- Claim C8: a handshake-initiation packet carrying an unsupported version
byte makes `Context::receive` return `Err(UnknownProtocolVersion)`, with the
context (session table, id allocator) unchanged and no packet emitted: the
failure is per-packet and no session is created. -/
theorem claim_C8_unknown_version (ctx : Context)
    (resolver : Nat → Option (Nat × Nat)) (e v sPub ePub isid now : Nat)
    (hv : v ≠ PROTOCOL_VERSION) :
    ctx.receive resolver e (.init v sPub ePub isid) now
      = (ctx, [], .error .UnknownProtocolVersion) := by
  simp [Context.receive, hv]

/-- Witness for claim C8 at a concrete context and version byte 7. -/
theorem claim_C8_witness :
    (Context.mk 1 [(10, demoSession)] 11 1500).receive (fun k => some (k, 0)) 0
        (.init 7 4 8 0) 0
      = (Context.mk 1 [(10, demoSession)] 11 1500, [],
         .error .UnknownProtocolVersion) :=
  claim_C8_unknown_version _ _ _ _ _ _ _ _ (by decide)

/-- Claim C10: on an established, non-expired session below the usage
ceiling, `Session::send` succeeds for a message of any length and
`Session::key_info` returns `Some((ratchet_count, fingerprint))` rather than
`None` — which is what lets the harness unconditionally assert
`send(..).is_ok()` and unwrap `key_info()`.  (The harness's working buffer is
not part of the model; fragments are returned directly.) -/
theorem claim_C10_send_ok_key_info_some (s : Session) (mtu : Nat)
    (msg : List Nat) (hest : s.established = true) (hexp : s.expired = false)
    (huse : s.uses < EXPIRE_AFTER_USES) :
    (s.send mtu msg).isOk = true ∧
      s.key_info = some (s.ratchetCount, fingerprint s.keyMaterial) := by
  constructor
  · simp [Session.send, hexp, Nat.not_le.mpr huse, Except.isOk, Except.toBool]
  · simp [Session.key_info, hest]

/-- Witness for claim C10 on the concrete demo session. -/
theorem claim_C10_witness :
    ((demoSession.send 1500 [1, 2, 3]).isOk = true ∧
      demoSession.key_info
        = some (demoSession.ratchetCount, fingerprint demoSession.keyMaterial)) :=
  claim_C10_send_ok_key_info_some demoSession 1500 [1, 2, 3] rfl rfl (by decide)

/-- Claim C6: a session that reaches `EXPIRE_AFTER_USES` uses of one key
generation is unusable: `Session::send` fails with `SessionExpired`,
`Context::receive` of a data fragment for it fails with `SessionExpired`, and
the next maintenance sweep tears the session down (evicts it), so only a full
new handshake can resume communication. -/
theorem claim_C6_expire_after_uses (ctx : Context)
    (resolver : Nat → Option (Nat × Nat)) (e lp js sid mtu now : Nat)
    (s : Session) (f : Fragment) (msg : List Nat)
    (hlk : findSession ctx.sessions sid = some s)
    (h : EXPIRE_AFTER_USES ≤ s.uses) (hest : s.established = true) :
    s.send mtu msg = .error .SessionExpired ∧
      (ctx.receive resolver e (.data sid f) now).2.2 = .error .SessionExpired ∧
      serviceSession lp now js s = none := by
  refine ⟨?_, ?_, ?_⟩
  · simp [Session.send, h]
  · simp [Context.receive, hlk, Session.receiveFragment, h]
  · simp [serviceSession, hest, h]

/-- A concrete session that has crossed the usage ceiling. -/
def ceilingSession : Session := { demoSession with uses := EXPIRE_AFTER_USES }

/-- Witness for claim C6 on a concrete ceiling-crossed session. -/
theorem claim_C6_witness :
    ceilingSession.send 1500 [1, 2] = .error .SessionExpired ∧
      ((Context.mk 1 [(10, ceilingSession)] 11 1500).receive (fun k => some (k, 0)) 0
          (.data 10 (Fragment.mk 0 0 0 1 0 11 [9])) 5).2.2
        = .error .SessionExpired ∧
      serviceSession 1 5 0 ceilingSession = none :=
  claim_C6_expire_after_uses _ _ _ _ _ _ _ _ ceilingSession _ _ rfl (by decide) rfl

/-- Claim C1: a handshake that completes validly between initiator and
responder (the responder's resolver accepts the initiator's static key with
the shared pre-shared secret) leaves both parties with identical session key
material — equal `key_info` values, hence equal key fingerprints and equal
ratchet generations — and matching session identifiers (each side's remote id
is the other side's local id), after a single round trip (`runHandshake`
processes exactly the initiation and its response). -/
theorem claim_C1_handshake_agreement (resolver : Nat → Option (Nat × Nat))
    (a b e1 e2 p na nb mtu now : Nat)
    (hres : resolver (pubkey a) = some (pubkey a, p)) :
    ((findSession (runHandshake resolver a b e1 e2 p na nb mtu now).1.sessions na).map
        fun s => (s.established, s.localId, s.remoteId, s.key_info))
      = some (true, na, nb,
              some (0, fingerprint (initiatorKey a e1 (pubkey b) (pubkey e2) p))) ∧
    ((findSession (runHandshake resolver a b e1 e2 p na nb mtu now).2.sessions nb).map
        fun s => (s.established, s.localId, s.remoteId, s.key_info))
      = some (true, nb, na,
              some (0, fingerprint (initiatorKey a e1 (pubkey b) (pubkey e2) p))) := by
  simp [runHandshake, Context.openSession, Context.receive, Context.update,
        findSession, Session.key_info, hres, key_agreement]

/-- Witness for claim C1 at concrete keys, ids and pre-shared secret. -/
theorem claim_C1_witness :
    ((findSession (runHandshake (fun k => some (k, 9)) 1 2 3 4 9 100 200 1500 0).1.sessions 100).map
        fun s => (s.established, s.localId, s.remoteId, s.key_info))
      = some (true, 100, 200,
              some (0, fingerprint (initiatorKey 1 3 (pubkey 2) (pubkey 4) 9))) ∧
    ((findSession (runHandshake (fun k => some (k, 9)) 1 2 3 4 9 100 200 1500 0).2.sessions 200).map
        fun s => (s.established, s.localId, s.remoteId, s.key_info))
      = some (true, 200, 100,
              some (0, fingerprint (initiatorKey 1 3 (pubkey 2) (pubkey 4) 9))) :=
  claim_C1_handshake_agreement (fun k => some (k, 9)) 1 2 3 4 9 100 200 1500 0 rfl

/-- An accepted counter is marked consumed in the resulting window. -/
theorem acceptCounter_mem_seen (w w' : ReplayWindow) (c : Nat)
    (h : acceptCounter w c = some w') : c ∈ w'.seen := by
  unfold acceptCounter at h
  by_cases h1 : c ∈ w.seen
  · simp [h1] at h
  · by_cases h2 : c + WINDOW_SIZE ≤ w.highest
    · simp [h1, h2] at h
    · simp only [if_neg h1, if_neg h2, Option.some.injEq] at h
      rw [← h]
      exact List.mem_cons_self _ _

/-- A counter already marked consumed is rejected. -/
theorem acceptCounter_seen_none (w : ReplayWindow) (c : Nat) (h : c ∈ w.seen) :
    acceptCounter w c = none := by
  simp [acceptCounter, h]

/-- A counter outside the sliding window behind the highest observed counter
is rejected. -/
theorem acceptCounter_out_of_window (w : ReplayWindow) (c : Nat)
    (h : c + WINDOW_SIZE ≤ w.highest) : acceptCounter w c = none := by
  unfold acceptCounter
  by_cases h1 : c ∈ w.seen
  · simp [h1]
  · simp [h1, h]

/-- The facts established by a successful `receiveFragment`: the session was
usable, the generation matched, the counter was accepted into the new window,
and expiry/usage/generation state is unchanged. -/
theorem receiveFragment_ok_spec (s s1 : Session) (f : Fragment)
    (r : ReceiveResult) (h : s.receiveFragment f = .ok (s1, r)) :
    s.expired = false ∧ ¬ EXPIRE_AFTER_USES ≤ s.uses ∧ f.gen = s.ratchetCount ∧
      acceptCounter s.window f.counter = some s1.window ∧
      s1.expired = s.expired ∧ s1.uses = s.uses ∧
      s1.ratchetCount = s.ratchetCount := by
  unfold Session.receiveFragment at h
  by_cases h1 : s.expired = true ∨ EXPIRE_AFTER_USES ≤ s.uses
  · rw [if_pos h1] at h; simp at h
  rw [if_neg h1] at h
  push_neg at h1
  by_cases h2 : f.gen ≠ s.ratchetCount
  · rw [if_pos h2] at h; simp at h
  rw [if_neg h2] at h
  push_neg at h2
  cases hacc : acceptCounter s.window f.counter with
  | none => rw [hacc] at h; simp at h
  | some w =>
    rw [hacc] at h
    dsimp only at h
    by_cases h3 : f.tag ≠ authTag s.keyMaterial
    · rw [if_pos h3] at h; simp at h
    rw [if_neg h3] at h
    by_cases h4 : f.ordinal ≠ s.reasm.length
    · rw [if_pos h4] at h; simp at h
    rw [if_neg h4] at h
    by_cases h5 : f.ordinal ≠ 0 ∧ s.reasm.head?.map Fragment.msgId ≠ some f.msgId
    · rw [if_pos h5] at h; simp at h
    rw [if_neg h5] at h
    by_cases h6 : (s.reasm ++ [f]).length = f.total
    · rw [if_pos h6] at h
      simp only [Except.ok.injEq, Prod.mk.injEq] at h
      rw [← h.1]
      refine ⟨by simp only [← Bool.not_eq_true]; exact h1.1, Nat.not_le.mpr h1.2,
              h2, by simp only [hacc], rfl, rfl, rfl⟩
    · rw [if_neg h6] at h
      simp only [Except.ok.injEq, Prod.mk.injEq] at h
      rw [← h.1]
      refine ⟨by simp only [← Bool.not_eq_true]; exact h1.1, Nat.not_le.mpr h1.2,
              h2, by simp only [hacc], rfl, rfl, rfl⟩

/-- Updating a present session makes the lookup return the new value. -/
theorem findSession_map_update (l : List (Nat × Session)) (sid : Nat)
    (s s1 : Session) (h : findSession l sid = some s) :
    findSession (l.map fun kv => if kv.1 = sid then (sid, s1) else kv) sid
      = some s1 := by
  induction l with
  | nil => simp [findSession] at h
  | cons kv rest ih =>
    obtain ⟨k, v⟩ := kv
    by_cases hk : k = sid
    · subst hk
      rw [List.map_cons, if_pos (show ((k, v).1 = k) from rfl), findSession,
          if_pos rfl]
    · rw [findSession, if_neg hk] at h
      simp only [List.map_cons, if_neg hk]
      rw [findSession, if_neg hk]
      exact ih h

/-- Claim C2: `Context::receive` never accepts a data fragment counter twice
under one key generation.  If a data datagram was accepted (`Ok`-result),
delivering the same datagram byte-for-byte a second time returns
`Err(ReplayDetected)` and is dropped; and any fragment of the same generation
whose counter lies outside the bounded sliding window behind the highest
observed counter is likewise rejected with `Err(ReplayDetected)`. -/
theorem claim_C2_replay_rejection (ctx ctx1 : Context)
    (resolver : Nat → Option (Nat × Nat)) (e sid now : Nat) (s : Session)
    (f g : Fragment) (out : List Packet) (r : ReceiveResult)
    (hlk : findSession ctx.sessions sid = some s)
    (h1 : ctx.receive resolver e (.data sid f) now = (ctx1, out, .ok r))
    (hg : g.gen = f.gen) (hw : g.counter + WINDOW_SIZE ≤ s.window.highest) :
    (ctx1.receive resolver e (.data sid f) now).2.2 = .error .ReplayDetected ∧
      (ctx.receive resolver e (.data sid g) now).2.2
        = .error .ReplayDetected := by
  simp only [Context.receive, hlk] at h1
  cases hrf : s.receiveFragment f with
  | error err => rw [hrf] at h1; simp at h1
  | ok pr =>
    obtain ⟨s1, rr⟩ := pr
    rw [hrf] at h1
    simp only [Prod.mk.injEq] at h1
    obtain ⟨hexp, huse, hgen, hacc, hexp1, huse1, hrc1⟩ :=
      receiveFragment_ok_spec s s1 f rr hrf
    have e1 : s1.expired = false := hexp1.trans hexp
    have u1 : ¬ EXPIRE_AFTER_USES ≤ s1.uses := by rw [huse1]; exact huse
    have g1 : f.gen = s1.ratchetCount := by rw [hrc1]; exact hgen
    have hmem : f.counter ∈ s1.window.seen := acceptCounter_mem_seen _ _ _ hacc
    constructor
    · have hfind1 : findSession ctx1.sessions sid = some s1 := by
        rw [← h1.1]
        exact findSession_map_update ctx.sessions sid s s1 hlk
      simp [Context.receive, hfind1, Session.receiveFragment, e1, u1, g1,
            acceptCounter_seen_none _ _ hmem]
    · have hgg : g.gen = s.ratchetCount := hg.trans hgen
      simp [Context.receive, hlk, Session.receiveFragment, hexp, huse, hgg,
            acceptCounter_out_of_window _ _ hw]

/-- A concrete session whose replay window already observed counter 100. -/
def replaySession : Session :=
  { demoSession with window := { highest := 100, seen := [] } }

/-- Witness for claim C2: counter 100 is accepted once and replay-rejected the
second time, and counter 0 (64 or more behind the highest observed counter
100) is rejected outright. -/
theorem claim_C2_witness :
    ((Context.mk 1 [(10, { replaySession with
          window := { highest := 100, seen := [100] } })] 11 1500).receive
        (fun k => some (k, 0)) 0 (.data 10 (Fragment.mk 0 0 0 1 100 11 [9])) 5).2.2
      = .error .ReplayDetected ∧
    ((Context.mk 1 [(10, replaySession)] 11 1500).receive (fun k => some (k, 0)) 0
        (.data 10 (Fragment.mk 0 7 0 1 0 11 [9])) 5).2.2
      = .error .ReplayDetected :=
  claim_C2_replay_rejection (Context.mk 1 [(10, replaySession)] 11 1500)
    (Context.mk 1 [(10, { replaySession with
        window := { highest := 100, seen := [100] } })] 11 1500)
    (fun k => some (k, 0)) 0 10 5 replaySession
    (Fragment.mk 0 0 0 1 100 11 [9]) (Fragment.mk 0 7 0 1 0 11 [9])
    [] (.OkData 10 [9]) rfl rfl rfl (by decide)

/-- `mkFrags` emits one fragment per chunk. -/
theorem mkFrags_length (g t m tot i c : Nat) (l : List (List Nat)) :
    (mkFrags g t m tot i c l).length = l.length := by
  induction l generalizing i c with
  | nil => rfl
  | cons x xs ih => simp [mkFrags, ih]

/-- The counters of the fragments of one message are the consecutive range
starting at the first assigned counter. -/
theorem mkFrags_map_counter (g t m tot i c : Nat) (l : List (List Nat)) :
    (mkFrags g t m tot i c l).map Fragment.counter = List.range' c l.length := by
  induction l generalizing i c with
  | nil => rfl
  | cons x xs ih => simp [mkFrags, ih, List.range']

/-- All fragments of one message carry the current key generation. -/
theorem mkFrags_map_gen (g t m tot i c : Nat) (l : List (List Nat)) :
    (mkFrags g t m tot i c l).map Fragment.gen = List.replicate l.length g := by
  induction l generalizing i c with
  | nil => rfl
  | cons x xs ih => simp [mkFrags, ih, List.replicate]

/-- The facts established by a successful `Session::send`: the generation is
unchanged, the send counter advances by the number of fragments, and the
emitted fragments carry the consecutive counters starting at the previous
send counter, all under the current generation. -/
theorem send_ok_spec (s s1 : Session) (mtu : Nat) (msg : List Nat)
    (fs : List Fragment) (h : s.send mtu msg = .ok (s1, fs)) :
    s1.ratchetCount = s.ratchetCount ∧
      s1.sendCounter = s.sendCounter + fs.length ∧
      fs.map Fragment.counter = List.range' s.sendCounter fs.length ∧
      fs.map Fragment.gen = List.replicate fs.length s.ratchetCount := by
  unfold Session.send at h
  by_cases h1 : s.expired = true ∨ EXPIRE_AFTER_USES ≤ s.uses
  · rw [if_pos h1] at h; simp at h
  rw [if_neg h1] at h
  dsimp only at h
  simp only [Except.ok.injEq, Prod.mk.injEq] at h
  obtain ⟨hs, hf⟩ := h
  have hlen : fs.length = (chunkList (usablePayload mtu) msg).length := by
    rw [← hf, mkFrags_length]
  refine ⟨by rw [← hs], by rw [← hs]; simp [hlen], ?_, ?_⟩
  · rw [← hf, mkFrags_map_counter, mkFrags_length]
  · rw [← hf, mkFrags_map_gen, mkFrags_length]

/-- The facts established by a successful sequence of sends: across the whole
sequence the counters are the consecutive range starting at the initial send
counter and every fragment carries the initial (unchanged) generation. -/
theorem sendMany_ok_spec (mtu : Nat) (s s2 : Session) (msgs : List (List Nat))
    (frags : List Fragment) (h : sendMany mtu s msgs = .ok (s2, frags)) :
    s2.ratchetCount = s.ratchetCount ∧
      s2.sendCounter = s.sendCounter + frags.length ∧
      frags.map Fragment.counter = List.range' s.sendCounter frags.length ∧
      frags.map Fragment.gen = List.replicate frags.length s.ratchetCount := by
  induction msgs generalizing s s2 frags with
  | nil =>
    unfold sendMany at h
    simp only [Except.ok.injEq, Prod.mk.injEq] at h
    obtain ⟨hs, hf⟩ := h
    subst hs
    simp [← hf]
  | cons m ms ih =>
    unfold sendMany at h
    cases hsend : s.send mtu m with
    | error e => rw [hsend] at h; simp at h
    | ok pr =>
      obtain ⟨s1, fs⟩ := pr
      rw [hsend] at h
      dsimp only at h
      cases hrest : sendMany mtu s1 ms with
      | error e => rw [hrest] at h; simp at h
      | ok pr2 =>
        obtain ⟨s2a, fs2⟩ := pr2
        rw [hrest] at h
        dsimp only at h
        simp only [Except.ok.injEq, Prod.mk.injEq] at h
        obtain ⟨hs2, hfr⟩ := h
        obtain ⟨r1, c1, mc1, mg1⟩ := send_ok_spec s s1 mtu m fs hsend
        obtain ⟨r2, c2, mc2, mg2⟩ := ih s1 s2a fs2 hrest
        subst hs2
        refine ⟨by rw [r2, r1], ?_, ?_, ?_⟩
        · rw [← hfr]
          simp only [List.length_append]
          omega
        · rw [← hfr, List.map_append, mc1, mc2, c1]
          simp only [List.length_append]
          rw [Nat.add_comm fs.length fs2.length]
          simp
        · rw [← hfr, List.map_append, mg1, mg2, r1, ← List.replicate_add]
          simp


/-- Claim C4: over any sequence of `Session::send` calls, the counters
assigned to the emitted fragments are strictly increasing (`Pairwise (· < ·)`,
hence pairwise distinct: no counter is ever reused) and every fragment is
encrypted under the same, unchanged key generation — so no
(key generation, send counter) pair is used for encryption more than once.
(The model serialises counter allocation, mirroring the exclusive-access
scope the spec requires around it.) -/
theorem claim_C4_counter_uniqueness (s : Session) (mtu : Nat)
    (msgs : List (List Nat)) :
    ((sendResultFrags (sendMany mtu s msgs)).map Fragment.counter).Pairwise (· < ·) ∧
      (sendResultFrags (sendMany mtu s msgs)).map Fragment.gen
        = List.replicate (sendResultFrags (sendMany mtu s msgs)).length
            s.ratchetCount := by
  cases h : sendMany mtu s msgs with
  | error e => simp [sendResultFrags]
  | ok pr =>
    obtain ⟨s2, frags⟩ := pr
    obtain ⟨_, _, mc, mg⟩ := sendMany_ok_spec mtu s s2 msgs frags h
    constructor
    · simp only [sendResultFrags, mc]
      simpa using List.pairwise_lt_range' s.sendCounter frags.length 1
    · simp only [sendResultFrags]
      rw [mg]

/-- Looking up an absent key in a per-entry-transformed table finds
nothing. -/
theorem findSession_filterMap_not_mem {α : Type} (g : Session → Option α)
    (h : α → Session) (l : List (Nat × Session)) (sid : Nat)
    (hnm : sid ∉ l.map Prod.fst) :
    findSession (l.filterMap fun kv => (g kv.2).map fun r => (kv.1, h r)) sid
      = none := by
  induction l with
  | nil => simp [findSession]
  | cons kv rest ih =>
    obtain ⟨k, v⟩ := kv
    simp only [List.map_cons, List.mem_cons, not_or] at hnm
    rw [List.filterMap_cons]
    cases hg : g v with
    | none => exact ih hnm.2
    | some r =>
      dsimp only [Option.map_some']
      rw [findSession, if_neg (fun hh => hnm.1 hh.symm)]
      exact ih hnm.2

/-- Looking up a present key after a per-entry transformation of the session
table (with unique keys) returns the transformed entry. -/
theorem findSession_filterMap {α : Type} (g : Session → Option α)
    (h : α → Session) (l : List (Nat × Session)) (sid : Nat) (s : Session)
    (hnd : (l.map Prod.fst).Nodup) (hm : (sid, s) ∈ l) :
    findSession (l.filterMap fun kv => (g kv.2).map fun r => (kv.1, h r)) sid
      = (g s).map h := by
  induction l with
  | nil => simp at hm
  | cons kv rest ih =>
    obtain ⟨k, v⟩ := kv
    simp only [List.map_cons, List.nodup_cons] at hnd
    rcases List.mem_cons.mp hm with heq | htail
    · cases heq
      rw [List.filterMap_cons]
      cases hg : g s with
      | none =>
        dsimp only [Option.map_none']
        exact findSession_filterMap_not_mem g h rest sid hnd.1
      | some r =>
        dsimp only [Option.map_some']
        rw [findSession, if_pos rfl]
    · have hk : k ≠ sid := by
        intro hh
        subst hh
        exact hnd.1 (List.mem_map_of_mem Prod.fst htail)
      rw [List.filterMap_cons]
      cases hg : g v with
      | none => exact ih hnd.2 htail
      | some r =>
        dsimp only [Option.map_some']
        rw [findSession, if_neg hk]
        exact ih hnd.2 htail

/-- Claim C5: when an established session's usage reaches `REKEY_AFTER_USES`,
or its age since the last key derivation reaches `REKEY_AFTER_TIME_MS` plus
its jitter, the maintenance sweep ratchets it: afterwards the session table
holds the ratcheted session, whose `key_info` reports a strictly increased
ratchet generation and a key fingerprint different from the one before. -/
theorem claim_C5_ratchet_on_threshold (ctx : Context) (sid now js : Nat)
    (s : Session) (hnd : (ctx.sessions.map Prod.fst).Nodup)
    (hmem : (sid, s) ∈ ctx.sessions) (hest : s.established = true)
    (hexp : s.expired = false) (huse : ¬ EXPIRE_AFTER_USES ≤ s.uses)
    (hdue : REKEY_AFTER_USES ≤ s.uses ∨
            s.lastRekeyTime + REKEY_AFTER_TIME_MS + s.jitter ≤ now) :
    findSession (ctx.service now js).1.sessions sid = some (s.ratchet now js) ∧
      (s.ratchet now js).key_info
        = some (s.ratchetCount + 1,
                fingerprint (s.keyMaterial ++ [ratchetSecret s])) ∧
      s.key_info = some (s.ratchetCount, fingerprint s.keyMaterial) ∧
      fingerprint (s.keyMaterial ++ [ratchetSecret s])
        ≠ fingerprint s.keyMaterial := by
  refine ⟨?_, ?_, ?_, ?_⟩
  · have hserv : serviceSession ctx.localPriv now js s
        = some (s.ratchet now js, []) := by
      rw [serviceSession, if_pos hest,
          if_neg (by rw [hexp]; simpa using huse),
          if_pos (by exact hdue)]
    have := findSession_filterMap (serviceSession ctx.localPriv now js)
      Prod.fst ctx.sessions sid s hnd hmem
    simp only [Context.service]
    rw [this, hserv]
    rfl
  · simp [Session.key_info, Session.ratchet, hest]
  · simp [Session.key_info, hest]
  · intro hh
    have := congrArg List.length hh
    simp [fingerprint] at this

/-- A concrete established session whose usage count has just reached the
rekey threshold. -/
def dueSession : Session := { demoSession with uses := REKEY_AFTER_USES }

/-- Witness for claim C5 on a concrete context whose single session crossed
`REKEY_AFTER_USES`. -/
theorem claim_C5_witness :
    findSession ((Context.mk 1 [(10, dueSession)] 11 1500).service 40 3).1.sessions 10
        = some (dueSession.ratchet 40 3) ∧
      (dueSession.ratchet 40 3).key_info
        = some (dueSession.ratchetCount + 1,
                fingerprint (dueSession.keyMaterial ++ [ratchetSecret dueSession])) ∧
      dueSession.key_info
        = some (dueSession.ratchetCount, fingerprint dueSession.keyMaterial) ∧
      fingerprint (dueSession.keyMaterial ++ [ratchetSecret dueSession])
        ≠ fingerprint dueSession.keyMaterial :=
  claim_C5_ratchet_on_threshold (Context.mk 1 [(10, dueSession)] 11 1500) 10 40 3
    dueSession (by decide) (by decide) rfl rfl (by decide) (Or.inl (by decide))

/-- Folding `min` never exceeds the initial accumulator. -/
theorem foldl_min_le_init (l : List Nat) (a : Nat) : l.foldl min a ≤ a := by
  induction l generalizing a with
  | nil => simp
  | cons b t ih =>
    simp only [List.foldl_cons]
    exact le_trans (ih (min a b)) (min_le_left a b)

/-- Folding `min` never exceeds any list element. -/
theorem foldl_min_le_mem (l : List Nat) (a x : Nat) (h : x ∈ l) :
    l.foldl min a ≤ x := by
  induction l generalizing a with
  | nil => simp at h
  | cons b t ih =>
    simp only [List.foldl_cons]
    rcases List.mem_cons.mp h with hx | hx
    · rw [hx]
      exact le_trans (foldl_min_le_init t (min a b)) (min_le_right a b)
    · exact ih (min a b) hx

/-- Folding `min` over a nonempty list bounds every element. -/
theorem foldl_min_le_all (d x : Nat) (ds : List Nat) (h : x ∈ d :: ds) :
    ds.foldl min d ≤ x := by
  rcases List.mem_cons.mp h with hx | hx
  · rw [hx]
    exact foldl_min_le_init ds d
  · exact foldl_min_le_mem ds d x hx

/-- After servicing, a surviving session's next scheduled action lies
strictly in the future: every due retransmission was sent, every due ratchet
performed, every expired entry evicted. -/
theorem serviceSession_some_deadline (lp now js : Nat) (s s1 : Session)
    (out : List Packet)
    (h : serviceSession lp now js s = some (s1, out)) :
    now < s1.nextDeadline := by
  have hT : 0 < REKEY_AFTER_TIME_MS := by decide
  have hR : 0 < RETRY_INTERVAL := by decide
  unfold serviceSession at h
  by_cases hest : s.established = true
  · rw [if_pos hest] at h
    by_cases hx : s.expired = true ∨ EXPIRE_AFTER_USES ≤ s.uses
    · rw [if_pos hx] at h; simp at h
    · rw [if_neg hx] at h
      by_cases hdue : rekeyDue s now
      · rw [if_pos hdue] at h
        simp only [Option.some.injEq, Prod.mk.injEq] at h
        rw [← h.1]
        simp [Session.nextDeadline, Session.ratchet, hest]
        omega
      · rw [if_neg hdue] at h
        simp only [Option.some.injEq, Prod.mk.injEq] at h
        rw [← h.1]
        unfold rekeyDue at hdue
        push_neg at hdue
        simp [Session.nextDeadline, hest]
        omega
  · rw [if_neg hest] at h
    by_cases ht : s.created + INCOMING_SESSION_NEGOTIATION_TIMEOUT_MS ≤ now
    · rw [if_pos ht] at h; simp at h
    · rw [if_neg ht] at h
      push_neg at ht
      by_cases hr : s.lastSent + RETRY_INTERVAL ≤ now
      · rw [if_pos hr] at h
        simp only [Option.some.injEq, Prod.mk.injEq] at h
        rw [← h.1]
        simp [Session.nextDeadline, hest]
        omega
      · rw [if_neg hr] at h
        push_neg at hr
        simp only [Option.some.injEq, Prod.mk.injEq] at h
        rw [← h.1]
        simp [Session.nextDeadline, hest]
        omega

/-- Claim C9: `Context::service(now)` performs the maintenance sweep and
returns the minimum time until the next action is due: every session still in
the table after the sweep has its next scheduled action (retry, rekey or
expiry deadline) strictly after `now` — everything due was handled — and a
caller sleeping until `now` plus the returned delay wakes no later than any
remaining session's next deadline, so no scheduled retry, rekey or expiry is
missed. -/
theorem claim_C9_service_deadline (ctx : Context) (now js : Nat)
    (kv : Nat × Session) (hmem : kv ∈ (ctx.service now js).1.sessions) :
    now < kv.2.nextDeadline ∧
      now + (ctx.service now js).2.2 ≤ kv.2.nextDeadline := by
  have hsess : (ctx.service now js).1.sessions
      = ctx.sessions.filterMap fun kv =>
          (serviceSession ctx.localPriv now js kv.2).map fun r => (kv.1, r.1) := rfl
  rw [hsess] at hmem
  obtain ⟨a, ha, hfa⟩ := List.mem_filterMap.mp hmem
  cases hs : serviceSession ctx.localPriv now js a.2 with
  | none => rw [hs] at hfa; simp at hfa
  | some r =>
    obtain ⟨s1, out⟩ := r
    rw [hs] at hfa
    simp only [Option.map_some', Option.some.injEq] at hfa
    have hd : now < s1.nextDeadline :=
      serviceSession_some_deadline ctx.localPriv now js a.2 s1 out hs
    have hkv2 : kv.2 = s1 := by rw [← hfa]
    have hnd : now < kv.2.nextDeadline := by rw [hkv2]; exact hd
    refine ⟨hnd, ?_⟩
    have hmemd : kv.2.nextDeadline ∈ (ctx.sessions.filterMap fun kv =>
        (serviceSession ctx.localPriv now js kv.2).map fun r => (kv.1, r.1)).map
          fun kv => kv.2.nextDeadline := by
      rw [← hsess]
      rw [← hsess] at hmem
      exact List.mem_map_of_mem _ hmem
    have hdelay : (ctx.service now js).2.2
        = match (ctx.sessions.filterMap fun kv =>
            (serviceSession ctx.localPriv now js kv.2).map fun r => (kv.1, r.1)).map
              (fun kv => kv.2.nextDeadline) with
          | [] => REKEY_AFTER_TIME_MS
          | d :: ds => ds.foldl min d - now := rfl
    cases hlist : (ctx.sessions.filterMap fun kv =>
        (serviceSession ctx.localPriv now js kv.2).map fun r => (kv.1, r.1)).map
          (fun kv => kv.2.nextDeadline) with
    | nil => rw [hlist] at hmemd; simp at hmemd
    | cons d ds =>
      rw [hlist] at hmemd
      have hmin : ds.foldl min d ≤ kv.2.nextDeadline :=
        foldl_min_le_all d _ ds hmemd
      have hdv : (ctx.service now js).2.2 = ds.foldl min d - now := by
        rw [hdelay, hlist]
      rw [hdv]
      omega

/-- Witness for claim C9 on a concrete single-session context. -/
theorem claim_C9_witness :
    40 < ((10 : Nat), demoSession).2.nextDeadline ∧
      40 + ((Context.mk 1 [(10, demoSession)] 11 1500).service 40 3).2.2
        ≤ ((10 : Nat), demoSession).2.nextDeadline :=
  claim_C9_service_deadline (Context.mk 1 [(10, demoSession)] 11 1500) 40 3
    (10, demoSession) (by decide)

/-- A replay window is fresh for counter `c` when everything it has seen is
below `c` and its highest observed counter is at most `c`; such a window
accepts `c` and all larger counters. -/
def winFresh (w : ReplayWindow) (c : Nat) : Prop :=
  (∀ x ∈ w.seen, x < c) ∧ w.highest ≤ c

instance (w : ReplayWindow) (c : Nat) : Decidable (winFresh w c) := by
  unfold winFresh
  exact instDecidableAnd

/-- A fresh window accepts its counter, and the resulting window is fresh for
the next counter. -/
theorem acceptCounter_fresh (w : ReplayWindow) (c : Nat) (h : winFresh w c) :
    acceptCounter w c
        = some { highest := max w.highest c, seen := c :: w.seen } ∧
      winFresh { highest := max w.highest c, seen := c :: w.seen } (c + 1) := by
  obtain ⟨h1, h2⟩ := h
  have hw : 0 < WINDOW_SIZE := by decide
  refine ⟨?_, ?_, ?_⟩
  · have hnm : c ∉ w.seen := fun hc => absurd (h1 c hc) (lt_irrefl c)
    have hnw : ¬ (c + WINDOW_SIZE ≤ w.highest) := by omega
    simp [acceptCounter, hnm, hnw]
  · intro x hx
    rcases List.mem_cons.mp hx with hx | hx
    · omega
    · exact lt_trans (h1 x hx) (Nat.lt_succ_self c)
  · simp only
    omega

/-- Computation rule for `receiveFragment` on a usable session with matching
generation and tag, an accepted counter and an in-sequence ordinal: the
fragment is buffered, and the reassembled message is released exactly when
the buffer reaches the fragment count. -/
theorem receiveFragment_step (rs : Session) (f : Fragment) (w : ReplayWindow)
    (hexp : rs.expired = false) (huse : ¬ EXPIRE_AFTER_USES ≤ rs.uses)
    (hgen : f.gen = rs.ratchetCount) (htag : f.tag = authTag rs.keyMaterial)
    (hacc : acceptCounter rs.window f.counter = some w)
    (hord : f.ordinal = rs.reasm.length)
    (hmsg : f.ordinal ≠ 0 → rs.reasm.head?.map Fragment.msgId = some f.msgId) :
    rs.receiveFragment f =
      if rs.reasm.length + 1 = f.total then
        .ok ({ rs with window := w, reasm := [] },
             .OkData rs.localId
               (((rs.reasm ++ [f]).map Fragment.payload).flatten))
      else .ok ({ rs with window := w, reasm := rs.reasm ++ [f] }, .Ok) := by
  have hm2 : ¬ (f.ordinal ≠ 0 ∧
      rs.reasm.head?.map Fragment.msgId ≠ some f.msgId) := by
    rintro ⟨h0, hne⟩
    exact hne (hmsg h0)
  unfold Session.receiveFragment
  rw [if_neg (not_or.mpr ⟨by simp [hexp], huse⟩),
      if_neg (by simpa using hgen), hacc]
  dsimp only
  rw [if_neg (by simpa using htag), if_neg (by simpa using hord), if_neg hm2]
  simp

/-- Unfolding rule: delivering a packet then the rest. -/
theorem deliverAll_cons (ctx : Context) (resolver : Nat → Option (Nat × Nat))
    (e : Nat) (p : Packet) (rest : List Packet) (now : Nat) :
    (deliverAll ctx resolver e (p :: rest) now).2
      = (ctx.receive resolver e p now).2.2
          :: (deliverAll (ctx.receive resolver e p now).1 resolver e rest now).2 :=
  rfl

/-- Delivering the fragments of one message, in order, to the session that
holds the matching key: every fragment but the last is consumed with `Ok`,
and the last releases the reassembled message — the previously buffered
payloads followed by the remaining chunks. -/
theorem deliver_mkFrags (resolver : Nat → Option (Nat × Nat)) (e now : Nat)
    (chunks : List (List Nat)) (ctx : Context)
    (sid gen tag msgId total : Nat) (rs : Session) (i c : Nat)
    (hlk : findSession ctx.sessions sid = some rs)
    (hid : rs.localId = sid)
    (hexp : rs.expired = false) (huse : ¬ EXPIRE_AFTER_USES ≤ rs.uses)
    (hgen : rs.ratchetCount = gen) (htag : tag = authTag rs.keyMaterial)
    (hwin : winFresh rs.window c)
    (hlen : rs.reasm.length = i)
    (hmsgs : rs.reasm.map Fragment.msgId = List.replicate i msgId)
    (htot : i + chunks.length = total)
    (hne : chunks ≠ []) :
    (deliverAll ctx resolver e
        ((mkFrags gen tag msgId total i c chunks).map (Packet.data sid)) now).2
      = List.replicate (chunks.length - 1) (.ok .Ok)
          ++ [.ok (.OkData sid
               ((rs.reasm.map Fragment.payload).flatten ++ chunks.flatten))] := by
  induction chunks generalizing ctx rs i c with
  | nil => exact absurd rfl hne
  | cons ch rest ih =>
    obtain ⟨hacc, hfresh⟩ := acceptCounter_fresh rs.window c hwin
    have hmsghead : (Fragment.mk gen msgId i total c tag ch).ordinal ≠ 0 →
        rs.reasm.head?.map Fragment.msgId
          = some (Fragment.mk gen msgId i total c tag ch).msgId := by
      intro h0
      simp only at h0 ⊢
      rw [← List.head?_map, hmsgs]
      obtain ⟨k, hk⟩ := Nat.exists_eq_succ_of_ne_zero h0
      subst hk
      simp [List.replicate_succ]
    have hstep := receiveFragment_step rs (Fragment.mk gen msgId i total c tag ch)
      { highest := max rs.window.highest c, seen := c :: rs.window.seen }
      hexp huse (by simpa using hgen.symm) (by simpa using htag)
      (by simpa using hacc) (by simpa using hlen.symm) hmsghead
    simp only [List.length_cons] at htot
    cases rest with
    | nil =>
      simp only [List.length_nil] at htot
      rw [if_pos (by dsimp only; omega)] at hstep
      have hrecv : ctx.receive resolver e
          (Packet.data sid (Fragment.mk gen msgId i total c tag ch)) now
          = (ctx.update sid { rs with
                window := { highest := max rs.window.highest c,
                            seen := c :: rs.window.seen },
                reasm := [] },
             [], .ok (.OkData rs.localId
               (((rs.reasm ++ [Fragment.mk gen msgId i total c tag ch]).map
                   Fragment.payload).flatten))) := by
        simp [Context.receive, hlk, hstep]
      simp only [mkFrags, List.map_cons, List.map_nil, deliverAll_cons, hrecv]
      simp [hid, List.flatten_append, deliverAll]
    | cons ch2 rest2 =>
      simp only [List.length_cons] at htot
      rw [if_neg (by dsimp only; omega)] at hstep
      have hrecv : ctx.receive resolver e
          (Packet.data sid (Fragment.mk gen msgId i total c tag ch)) now
          = (ctx.update sid { rs with
                window := { highest := max rs.window.highest c,
                            seen := c :: rs.window.seen },
                reasm := rs.reasm ++ [Fragment.mk gen msgId i total c tag ch] },
             [], .ok .Ok) := by
        simp [Context.receive, hlk, hstep]
      rw [show mkFrags gen tag msgId total i c (ch :: ch2 :: rest2)
            = Fragment.mk gen msgId i total c tag ch
                :: mkFrags gen tag msgId total (i + 1) (c + 1) (ch2 :: rest2)
            from rfl,
          List.map_cons, deliverAll_cons, hrecv]
      dsimp only
      have hih := ih (ctx.update sid { rs with
          window := { highest := max rs.window.highest c,
                      seen := c :: rs.window.seen },
          reasm := rs.reasm ++ [Fragment.mk gen msgId i total c tag ch] })
        ({ rs with
          window := { highest := max rs.window.highest c,
                      seen := c :: rs.window.seen },
          reasm := rs.reasm ++ [Fragment.mk gen msgId i total c tag ch] })
        (i + 1) (c + 1)
        (findSession_map_update ctx.sessions sid rs _ hlk)
        hid hexp huse hgen htag hfresh
        (by simp [hlen])
        (by simp [hmsgs, List.replicate_succ'])
        (by simp only [List.length_cons]; omega) (by simp)
      simp only at hih
      rw [hih]
      have hl : (ch :: ch2 :: rest2).length - 1
          = ((ch2 :: rest2).length - 1) + 1 := by simp
      rw [hl, List.replicate_succ]
      simp [List.flatten_append, List.append_assoc]

/-- Claim C3: for any nonempty application message, sending it on a session
splits it into `⌈length / usable-payload⌉` counter-tagged fragments, and
delivering all of those fragments in order through `Context::receive` to the
session holding the matching key consumes every fragment but the last with
`Ok` and releases, on the last one, exactly the original message:
fragmentation followed by reassembly is the identity on message content. -/
theorem claim_C3_fragmentation_roundtrip (ctx : Context)
    (resolver : Nat → Option (Nat × Nat)) (e sid mtu now : Nat)
    (s rs : Session) (msg : List Nat)
    (hmtu : HEADER_SIZE + AEAD_TAG_SIZE < mtu)
    (hmsg : msg ≠ [])
    (hlk : findSession ctx.sessions sid = some rs)
    (hid : rs.localId = sid)
    (hsexp : s.expired = false) (hsuse : ¬ EXPIRE_AFTER_USES ≤ s.uses)
    (hexp : rs.expired = false) (huse : ¬ EXPIRE_AFTER_USES ≤ rs.uses)
    (hgen : rs.ratchetCount = s.ratchetCount)
    (hkm : rs.keyMaterial = s.keyMaterial)
    (hwin : winFresh rs.window s.sendCounter)
    (hreasm : rs.reasm = []) :
    (sendResultFrags (s.send mtu msg)).length
        = (msg.length + usablePayload mtu - 1) / usablePayload mtu ∧
      (deliverAll ctx resolver e
          ((sendResultFrags (s.send mtu msg)).map (Packet.data sid)) now).2
        = List.replicate
            ((msg.length + usablePayload mtu - 1) / usablePayload mtu - 1)
            (Except.ok ReceiveResult.Ok)
          ++ [Except.ok (ReceiveResult.OkData sid msg)] := by
  have hps : 0 < usablePayload mtu := by unfold usablePayload; omega
  have hchne : chunkList (usablePayload mtu) msg ≠ [] := by
    rw [chunkList, if_neg (by push_neg; exact ⟨hmsg, by omega⟩)]
    simp
  have hn : (chunkList (usablePayload mtu) msg).length
      = (msg.length + usablePayload mtu - 1) / usablePayload mtu :=
    chunkList_length _ hps msg hmsg
  have hsend : s.send mtu msg
      = .ok ({ s with
                sendCounter := s.sendCounter
                  + (chunkList (usablePayload mtu) msg).length,
                uses := s.uses + (chunkList (usablePayload mtu) msg).length },
             mkFrags s.ratchetCount (authTag s.keyMaterial) s.sendCounter
               (chunkList (usablePayload mtu) msg).length 0 s.sendCounter
               (chunkList (usablePayload mtu) msg)) := by
    rw [Session.send, if_neg (not_or.mpr ⟨by simp [hsexp], hsuse⟩)]
  have hfr : sendResultFrags (s.send mtu msg)
      = mkFrags s.ratchetCount (authTag s.keyMaterial) s.sendCounter
          (chunkList (usablePayload mtu) msg).length 0 s.sendCounter
          (chunkList (usablePayload mtu) msg) := by
    rw [hsend]
    rfl
  constructor
  · rw [hfr, mkFrags_length, hn]
  · rw [hfr]
    have hdel := deliver_mkFrags resolver e now
      (chunkList (usablePayload mtu) msg) ctx sid s.ratchetCount
      (authTag s.keyMaterial) s.sendCounter
      (chunkList (usablePayload mtu) msg).length rs 0 s.sendCounter
      hlk hid hexp huse hgen (by rw [hkm]) hwin (by rw [hreasm]; rfl)
      (by rw [hreasm]; rfl) (by simp) hchne
    rw [hdel, hreasm]
    simp [chunkList_flatten _ hps msg, hn]

/-- Witness for claim C3: a 5-byte message over usable payload 2 becomes 3
fragments which reassemble to the original message. -/
theorem claim_C3_witness :
    (sendResultFrags (demoSession.send 50 [1, 2, 3, 4, 5])).length
        = (([1, 2, 3, 4, 5] : List Nat).length + usablePayload 50 - 1)
            / usablePayload 50 ∧
      (deliverAll (Context.mk 1 [(10, demoSession)] 11 1500) (fun k => some (k, 0)) 0
          ((sendResultFrags (demoSession.send 50 [1, 2, 3, 4, 5])).map
            (Packet.data 10)) 5).2
        = List.replicate
            ((([1, 2, 3, 4, 5] : List Nat).length + usablePayload 50 - 1)
                / usablePayload 50 - 1)
            (Except.ok ReceiveResult.Ok)
          ++ [Except.ok (ReceiveResult.OkData 10 [1, 2, 3, 4, 5])] :=
  claim_C3_fragmentation_roundtrip (Context.mk 1 [(10, demoSession)] 11 1500)
    (fun k => some (k, 0)) 0 10 50 5 demoSession demoSession [1, 2, 3, 4, 5]
    (by decide) (by decide) rfl rfl rfl (by decide) rfl (by decide) rfl rfl
    (by decide) rfl

end Zssp
